import Mathlib

/-!
# Verification of the audio-normalizer repository

A shallow embedding of the loudness-normalization pipeline and the
container extract/modify/repack discipline of the `audio-normalizer`
repository, together with theorems settling the behavioural claims about
it.

Conventions of the embedding:
* Python floats are modelled as rationals (`ℚ`); the two non-finite
  loudness values the code tests for (`-inf`, `NaN`) are modelled by the
  dedicated constructors of `Loudness`.
* Calls into external libraries (`pyloudnorm`, `noisereduce`,
  `soundfile`, `ffmpeg`, `zipfile`) are oracles: each appears as a
  function- or flag-valued field of an environment structure, or as a
  definition whose doc comment says which library semantics it models.
* Fallible steps are modelled by `Except`/`Bool` oracle outcomes, and a
  pipeline returns `Option` exactly where the Python returns
  `None`-or-value.
-/

namespace AudioNormalizer

/-- The result of `pyln.Meter.integrated_loudness`: a float that the code
inspects for `-inf` and `NaN` (audio_normalizer.py lines 114 and 198). -/
inductive Loudness where
  | negInf : Loudness
  | nan : Loudness
  | finite : ℚ → Loudness
deriving DecidableEq

/-- Decoded PCM as returned by `soundfile.read`: either a 1-D array of
samples (mono) or a 2-D array of shape `(frames, ncols)`. -/
inductive PCM where
  | mono : List ℚ → PCM
  | multi : (ncols : ℕ) → (rows : List (List ℚ)) → PCM
deriving DecidableEq

/-- `len(data)` of a numpy array: number of rows for 2-D data. -/
def pcmLen : PCM → ℕ
  | .mono xs => xs.length
  | .multi _ rows => rows.length

/-- utils.get_audio_duration: `num_samples / sample_rate`. -/
def get_audio_duration (sample_rate : ℚ) (num_samples : ℕ) : ℚ :=
  (num_samples : ℚ) / sample_rate

/-- audio_normalizer.AudioNormalizationStats (the constructor just stores
its arguments). -/
structure AudioNormalizationStats where
  filename : String
  original_lufs : ℚ
  target_lufs : ℚ
  gain_db : ℚ
  duration : ℚ
deriving DecidableEq

/-- Oracle environment for `_normalize_native_format`: the results of the
external-library calls it makes on this particular file. -/
structure AudioEnv where
  /-- `file_path.name`. -/
  filename : String
  /-- the data returned by `sf.read`. -/
  data : PCM
  /-- the sample rate returned by `sf.read`. -/
  rate : ℚ
  /-- outcome of the call `denoise_audio(data, rate, strength)`:
  `.error` when that call raises. -/
  denoiseAttempt : ℚ → PCM → Except String PCM
  /-- `meter.integrated_loudness` on whatever data is passed to it. -/
  measure : PCM → Loudness
  /-- whether `sf.write` succeeds. -/
  writeOk : Bool

/-- Oracle environment for `_normalize_compressed_format`. -/
structure CompressedEnv where
  filename : String
  /-- whether `_convert_to_wav` (the forward ffmpeg call) succeeds. -/
  convertToWavOk : Bool
  /-- the data `sf.read` returns for the intermediate WAV. -/
  data : PCM
  rate : ℚ
  denoiseAttempt : ℚ → PCM → Except String PCM
  measure : PCM → Loudness
  /-- whether `sf.write` to the temp WAV succeeds. -/
  writeTempOk : Bool
  /-- whether `_convert_from_wav` (the backward ffmpeg call) succeeds. -/
  convertFromWavOk : Bool

/-- The `try/except` around the `denoise_audio` call (audio_normalizer.py
lines 98-105 and 183-189): on success the denoised data replaces `data`,
on an exception `data` is left as it was. -/
def postDenoise (denoise : Bool) (attempt : Except String PCM) (orig : PCM) : PCM :=
  if denoise then
    match attempt with
    | .ok d => d
    | .error _ => orig
  else orig

/-- audio_normalizer._normalize_native_format.  Returns the Python result
(`None` or the stats record) paired with a flag recording whether the
audio file on disk was rewritten (whether `sf.write(file_path, ...)` was
reached). -/
def normalize_native_format (io : AudioEnv) (target_lufs : ℚ) (denoise : Bool)
    (denoise_strength : ℚ) : Option AudioNormalizationStats × Bool :=
  let duration := get_audio_duration io.rate (pcmLen io.data)
  if duration < 2/5 then (none, false)
  else
    let data := postDenoise denoise (io.denoiseAttempt denoise_strength io.data) io.data
    match io.measure data with
    | .negInf => (none, false)
    | .nan => (none, false)
    | .finite loudness =>
        let gain_db := target_lufs - loudness
        if io.writeOk then
          (some ⟨io.filename, loudness, target_lufs, gain_db, duration⟩, true)
        else
          (none, true)

/-- audio_normalizer._normalize_compressed_format.  The flag records
whether `_convert_from_wav` (which overwrites the original file) was
reached. -/
def normalize_compressed_format (io : CompressedEnv) (target_lufs : ℚ) (denoise : Bool)
    (denoise_strength : ℚ) : Option AudioNormalizationStats × Bool :=
  if ¬ io.convertToWavOk then (none, false)
  else
    let duration := get_audio_duration io.rate (pcmLen io.data)
    if duration < 2/5 then (none, false)
    else
      let data := postDenoise denoise (io.denoiseAttempt denoise_strength io.data) io.data
      match io.measure data with
      | .negInf => (none, false)
      | .nan => (none, false)
      | .finite loudness =>
          let gain_db := target_lufs - loudness
          if ¬ io.writeTempOk then (none, false)
          else if io.convertFromWavOk then
            (some ⟨io.filename, loudness, target_lufs, gain_db, duration⟩, true)
          else
            (none, true)

/-- `file_path.suffix.lower().lstrip('.')` (audio_normalizer.py line 54):
lower-case the extension character-wise and strip the leading dots. -/
def fileFormat (suffix : String) : String :=
  ⟨(suffix.data.map Char.toLower).dropWhile (· == '.')⟩

/-- The extension list of the native branch (audio_normalizer.py line 57). -/
def nativeFormats : List String := ["wav", "flac", "ogg"]

/-- The extension list of the ffmpeg branch (audio_normalizer.py line 60). -/
def bridgedFormats : List String := ["mp3", "m4a", "wma", "aac"]

/-- audio_normalizer.normalize_audio_file: dispatch on the lowercased
extension; unknown formats are skipped (`None`, nothing written). -/
def normalize_audio_file (nio : AudioEnv) (cio : CompressedEnv) (suffix : String)
    (target_lufs : ℚ) (denoise : Bool) (denoise_strength : ℚ) :
    Option AudioNormalizationStats × Bool :=
  let file_format := fileFormat suffix
  if file_format ∈ nativeFormats then
    normalize_native_format nio target_lufs denoise denoise_strength
  else if file_format ∈ bridgedFormats then
    normalize_compressed_format cio target_lufs denoise denoise_strength
  else
    (none, false)

/-- The ffmpeg command built by `_convert_to_wav` (audio_normalizer.py
lines 247-256). -/
def convert_to_wav_cmd (input_path output_path : String) : List String :=
  ["ffmpeg", "-i", input_path, "-y", "-acodec", "pcm_s16le",
   "-ar", "48000", "-ac", "2", "-loglevel", "error", output_path]

/-- The `codec_map` of `_convert_from_wav` (audio_normalizer.py lines
274-279). -/
def codec_map : List (String × List String) :=
  [("mp3", ["-acodec", "libmp3lame", "-b:a", "192k"]),
   ("m4a", ["-acodec", "aac", "-b:a", "192k"]),
   ("wma", ["-acodec", "wmav2", "-b:a", "192k"]),
   ("aac", ["-acodec", "aac", "-b:a", "192k"])]

/-- `codec_map.get(target_format, ['-acodec', 'copy'])`. -/
def codec_args (target_format : String) : List String :=
  match codec_map.find? (fun p => p.1 == target_format) with
  | some p => p.2
  | none => ["-acodec", "copy"]

/-- The ffmpeg command built by `_convert_from_wav` (audio_normalizer.py
lines 283-290). -/
def convert_from_wav_cmd (input_wav output_path target_format : String) : List String :=
  ["ffmpeg", "-i", input_wav, "-y"] ++ codec_args target_format ++
    ["-loglevel", "error", output_path]

/-- `data[:, j]` for a 2-D array given as a list of rows (entries past a
row's end default to 0; rectangular inputs never hit the default). -/
def getCol (rows : List (List ℚ)) (j : ℕ) : List ℚ :=
  rows.map (fun r => r.getD j 0)

/-- `np.column_stack(cols)`: with k equal-length columns, the row `i` of
the result is `[cols[0][i], ..., cols[k-1][i]]`. -/
def columnStack (cols : List (List ℚ)) : List (List ℚ) :=
  (List.range (cols.headD []).length).map (fun i => cols.map (fun c => c.getD i 0))

/-- The rows of a 2-D array (a 1-D array is its single row). -/
def pcmRows : PCM → List (List ℚ)
  | .mono xs => [xs]
  | .multi _ rows => rows

/-- `data.shape[1]` for 2-D data; 1 for mono. -/
def pcmChannels : PCM → ℕ
  | .mono _ => 1
  | .multi ncols _ => ncols

/-- audio_normalizer.denoise_audio.  `rn` is the oracle for the library
call `nr.reduce_noise(y=channel, sr=rate, stationary=True,
prop_decrease=strength)` on 1-D data; `rn2` is the same call on 2-D data
(only reachable for a 2-D array with at most one column).  The
`astype(float32)` round trip is the identity in this rational model. -/
def denoise_audio (rn : ℚ → List ℚ → List ℚ)
    (rn2 : ℚ → List (List ℚ) → List (List ℚ)) (strength : ℚ) : PCM → PCM
  | .mono xs => .mono (rn strength xs)
  | .multi ncols rows =>
      if 1 < ncols then
        let denoised_channels := (List.range ncols).map
          (fun channel => rn strength (getCol rows channel))
        .multi ncols (columnStack denoised_channels)
      else
        .multi ncols (rn2 strength rows)

end AudioNormalizer

namespace PptxHandler

/-- A node of the scratch tree on disk: a regular file with its byte
content, or a directory with its children. -/
inductive FsNode where
  | file : String → List ℕ → FsNode
  | dir : String → List FsNode → FsNode

/-- The name of a directory entry. -/
def nodeName : FsNode → String
  | .file n _ => n
  | .dir n _ => n

/-- The `os.walk` traversal driving `reconstruct_pptx` (pptx_handler.py
lines 93-101): every regular file anywhere under the root, paired with
its path relative to the root (the `arcname`).  Directories contribute
no entries of their own. -/
def walkFiles : List FsNode → List (List String × List ℕ)
  | [] => []
  | .file n c :: rest => ([n], c) :: walkFiles rest
  | .dir n ch :: rest =>
      (walkFiles ch).map (fun pc => (n :: pc.1, pc.2)) ++ walkFiles rest

/-- pptx_handler.reconstruct_pptx: the archive written is one entry per
regular file of the scratch tree, named by its path relative to the
scratch root. -/
def reconstruct_pptx (scratch : List FsNode) : List (List String × List ℕ) :=
  walkFiles scratch

/-- `p` addresses a regular file with content `c` in the tree. -/
def isFileAt : List FsNode → List String → List ℕ → Prop
  | _, [], _ => False
  | ns, [n], c => FsNode.file n c ∈ ns
  | ns, n :: m :: p, c => ∃ ch, FsNode.dir n ch ∈ ns ∧ isFileAt ch (m :: p) c

mutual

/-- Filesystem well-formedness of one node: a directory's children have
pairwise-distinct names, recursively. -/
def nodeWf : FsNode → Bool
  | .file _ _ => true
  | .dir _ ch => decide ((ch.map nodeName).Nodup) && allWf ch

/-- Filesystem well-formedness of a list of nodes. -/
def allWf : List FsNode → Bool
  | [] => true
  | x :: rest => nodeWf x && allWf rest

end

/-- Filesystem well-formedness of a whole scratch tree: sibling names are
distinct at every level. -/
def treeWf (ns : List FsNode) : Bool :=
  decide ((ns.map nodeName).Nodup) && allWf ns

/-- An entry of the input ZIP archive: a file entry with content, or a
bare directory entry. -/
inductive ZipEntry where
  | file : List String → List ℕ → ZipEntry
  | dir : List String → ZipEntry
deriving DecidableEq

/-- Materialize one file entry at path `path` in the tree, creating the
missing intermediate directories (descends into the first directory of
the right name, as a filesystem does). -/
def insertPath : List FsNode → List String → List ℕ → List FsNode
  | ns, [], _ => ns
  | ns, [n], c => ns ++ [FsNode.file n c]
  | [], n :: q :: p, c => [FsNode.dir n (insertPath [] (q :: p) c)]
  | FsNode.dir m ch :: rest, n :: q :: p, c =>
      if m = n then FsNode.dir m (insertPath ch (q :: p) c) :: rest
      else FsNode.dir m ch :: insertPath rest (n :: q :: p) c
  | FsNode.file m d :: rest, n :: q :: p, c =>
      FsNode.file m d :: insertPath rest (n :: q :: p) c
termination_by ns path _ => (path.length, sizeOf ns)

/-- Materialize one directory entry (`mkdir -p`). -/
def insertDirPath : List FsNode → List String → List FsNode
  | ns, [] => ns
  | [], n :: p => [FsNode.dir n (insertDirPath [] p)]
  | FsNode.dir m ch :: rest, n :: p =>
      if m = n then FsNode.dir m (insertDirPath ch p) :: rest
      else FsNode.dir m ch :: insertDirPath rest (n :: p)
  | FsNode.file m d :: rest, n :: p =>
      FsNode.file m d :: insertDirPath rest (n :: p)
termination_by ns path => (path.length, sizeOf ns)

/-- Modelled from the Python standard library: `zipfile.ZipFile.extractall`
as called by pptx_handler.extract_pptx (line 34) — materialize **every**
entry of the archive in the scratch directory, in order. -/
def extractall (entries : List ZipEntry) : List FsNode :=
  entries.foldl
    (fun t e =>
      match e with
      | .file p c => insertPath t p c
      | .dir p => insertDirPath t p)
    []

end PptxHandler

namespace Cli

/-- How the output file of a PPTX job was produced. -/
inductive OutputAction where
  | copyOriginal : OutputAction
  | repackTree : OutputAction
deriving DecidableEq

/-- Result of one PPTX job: the Python return code, the output-producing
actions performed, and the bytes of the output file (if one was written). -/
structure JobResult where
  exit : ℕ
  actions : List OutputAction
  output : Option (List ℕ)
deriving DecidableEq

/-- Oracle environment for one PPTX job: outcomes of the file-system and
library calls `process_single_pptx` makes. -/
structure PptxJob where
  /-- `validate_pptx_file` verdict. -/
  validOk : Bool
  /-- `output_path.exists()`. -/
  outputExists : Bool
  /-- the user's `confirm_overwrite` answer. -/
  confirmAnswer : Bool
  /-- whether `extract_pptx` (and the scratch-dir setup) succeeds. -/
  extractOk : Bool
  /-- the audio files found by `extract_pptx`. -/
  audioFiles : List String
  /-- the stats list `normalize_audio_files` returns (only logged). -/
  normStats : List AudioNormalizer.AudioNormalizationStats
  /-- the bytes of the input container file. -/
  containerBytes : List ℕ
  /-- whether `reconstruct_pptx` succeeds. -/
  repackOk : Bool
  /-- the bytes `reconstruct_pptx` writes when it succeeds. -/
  repackBytes : List ℕ

/-- cli.process_single_pptx (cli.py lines 27-91).  `shutil.copy2` is
modelled by its semantics: the output bytes equal the input bytes. -/
def process_single_pptx (job : PptxJob) (force : Bool) : JobResult :=
  if ¬ job.validOk then ⟨1, [], none⟩
  else if job.outputExists && !force && !job.confirmAnswer then ⟨0, [], none⟩
  else if ¬ job.extractOk then ⟨1, [], none⟩
  else if job.audioFiles.isEmpty then ⟨0, [.copyOriginal], some job.containerBytes⟩
  else if job.repackOk then ⟨0, [.repackTree], some job.repackBytes⟩
  else ⟨1, [], none⟩

/-- The single-file branch of cli.main (cli.py lines 253-317), which
repeats the `process_single_pptx` flow inline (same validation, same
no-audio copy branch, same repack). -/
def mainSingleFile (job : PptxJob) (force : Bool) : JobResult :=
  if ¬ job.validOk then ⟨1, [], none⟩
  else if job.outputExists && !force && !job.confirmAnswer then ⟨0, [], none⟩
  else if ¬ job.extractOk then ⟨1, [], none⟩
  else if job.audioFiles.isEmpty then ⟨0, [.copyOriginal], some job.containerBytes⟩
  else if job.repackOk then ⟨0, [.repackTree], some job.repackBytes⟩
  else ⟨1, [], none⟩

/-- cli.process_batch_directory (cli.py lines 333-406): validate the
directory, then run every job accumulating success/error counters; the
batch exit code is 0 exactly when the error counter stays 0. -/
def process_batch_directory (dirExists dirIsDir : Bool) (jobs : List PptxJob)
    (force : Bool) : ℕ :=
  if ¬ dirExists then 1
  else if ¬ dirIsDir then 1
  else if jobs.isEmpty then 0
  else
    let counts := jobs.foldl
      (fun (acc : ℕ × ℕ) job =>
        if (process_single_pptx job force).exit = 0 then (acc.1 + 1, acc.2)
        else (acc.1, acc.2 + 1))
      (0, 0)
    if counts.2 = 0 then 0 else 1

end Cli

namespace VideoCli

/-- Oracle environment for one video job. -/
structure VideoJob where
  /-- `validate_video_file` verdict. -/
  validOk : Bool
  outputExists : Bool
  confirmAnswer : Bool
  /-- whether `extract_audio_from_video` succeeds (it raises when the
  video has no audio stream or ffmpeg fails). -/
  extractAudioOk : Bool
  /-- environment for `normalize_audio_file` on the extracted WAV. -/
  audio : AudioNormalizer.AudioEnv
  /-- compressed-path environment (never used: the temp file is `.wav`). -/
  comp : AudioNormalizer.CompressedEnv
  /-- whether `replace_audio_in_video` succeeds. -/
  remuxOk : Bool

/-- video_cli.process_single_video (video_cli.py lines 30-90): a `None`
from `normalize_audio_file` (skip or failure) returns 1 before the remux
is attempted. -/
def process_single_video (job : VideoJob) (force : Bool) (target_lufs : ℚ)
    (denoise : Bool) (denoise_strength : ℚ) : ℕ :=
  if ¬ job.validOk then 1
  else if job.outputExists && !force && !job.confirmAnswer then 0
  else if ¬ job.extractAudioOk then 1
  else
    match (AudioNormalizer.normalize_audio_file job.audio job.comp ".wav"
        target_lufs denoise denoise_strength).1 with
    | none => 1
    | some _ => if job.remuxOk then 0 else 1

/-- video_cli.process_batch_directory (video_cli.py lines 93-166): same
counter loop as the PPTX batch. -/
def process_batch_directory (dirExists dirIsDir : Bool) (jobs : List VideoJob)
    (force : Bool) (target_lufs : ℚ) (denoise : Bool) (denoise_strength : ℚ) : ℕ :=
  if ¬ dirExists then 1
  else if ¬ dirIsDir then 1
  else if jobs.isEmpty then 0
  else
    let counts := jobs.foldl
      (fun (acc : ℕ × ℕ) job =>
        if process_single_video job force target_lufs denoise denoise_strength = 0 then
          (acc.1 + 1, acc.2)
        else (acc.1, acc.2 + 1))
      (0, 0)
    if counts.2 = 0 then 0 else 1

end VideoCli

section Examples

open AudioNormalizer PptxHandler Cli VideoCli

/-- A concrete native-path environment: one second of audio measured at
-23 LUFS, all library calls succeeding. -/
def exAudioEnv : AudioEnv where
  filename := "media1.wav"
  data := .mono [0, 0]
  rate := 2
  denoiseAttempt := fun _ d => .ok d
  measure := fun _ => .finite (-23)
  writeOk := true

/-- Like `exAudioEnv` but the `denoise_audio` call raises. -/
def exAudioEnvFail : AudioEnv where
  filename := "media1.wav"
  data := .mono [0, 0]
  rate := 2
  denoiseAttempt := fun _ _ => .error "noisereduce crashed"
  measure := fun _ => .finite (-23)
  writeOk := true

/-- A native-path environment whose decoded audio is 0.2 s long. -/
def exShortAudioEnv : AudioEnv where
  filename := "short.wav"
  data := .mono [0, 0]
  rate := 10
  denoiseAttempt := fun _ d => .ok d
  measure := fun _ => .finite (-23)
  writeOk := true

/-- A native-path environment whose audio measures as silence. -/
def exSilentAudioEnv : AudioEnv where
  filename := "silent.wav"
  data := .mono [0, 0]
  rate := 2
  denoiseAttempt := fun _ d => .ok d
  measure := fun _ => .negInf
  writeOk := true

/-- A concrete compressed-path environment with every step succeeding. -/
def exCompressedEnv : CompressedEnv where
  filename := "media2.mp3"
  convertToWavOk := true
  data := .mono [0, 0]
  rate := 2
  denoiseAttempt := fun _ d => .ok d
  measure := fun _ => .finite (-23)
  writeTempOk := true
  convertFromWavOk := true

/-- Like `exCompressedEnv` but the `denoise_audio` call raises. -/
def exCompressedEnvFail : CompressedEnv where
  filename := "media2.mp3"
  convertToWavOk := true
  data := .mono [0, 0]
  rate := 2
  denoiseAttempt := fun _ _ => .error "noisereduce crashed"
  measure := fun _ => .finite (-23)
  writeTempOk := true
  convertFromWavOk := true

/-- A compressed-path environment whose decoded audio is 0.2 s long. -/
def exShortCompressedEnv : CompressedEnv where
  filename := "short.mp3"
  convertToWavOk := true
  data := .mono [0, 0]
  rate := 10
  denoiseAttempt := fun _ d => .ok d
  measure := fun _ => .finite (-23)
  writeTempOk := true
  convertFromWavOk := true

/-- A compressed-path environment whose loudness measures as NaN. -/
def exNanCompressedEnv : CompressedEnv where
  filename := "odd.mp3"
  convertToWavOk := true
  data := .mono [0, 0]
  rate := 2
  denoiseAttempt := fun _ d => .ok d
  measure := fun _ => .nan
  writeTempOk := true
  convertFromWavOk := true

/-- A PPTX job whose container holds no recognized audio entry. -/
def exPptxJobNoAudio : PptxJob where
  validOk := true
  outputExists := false
  confirmAnswer := false
  extractOk := true
  audioFiles := []
  normStats := []
  containerBytes := [80, 75, 3, 4]
  repackOk := true
  repackBytes := [80, 75, 9]

/-- A PPTX job in which every audio file was skipped (empty stats). -/
def exPptxJobAllSkipped : PptxJob where
  validOk := true
  outputExists := false
  confirmAnswer := false
  extractOk := true
  audioFiles := ["media1.wav"]
  normStats := []
  containerBytes := [80, 75, 3, 4]
  repackOk := true
  repackBytes := [80, 75, 9]

/-- A PPTX job that fails validation. -/
def exPptxJobInvalid : PptxJob where
  validOk := false
  outputExists := false
  confirmAnswer := false
  extractOk := true
  audioFiles := []
  normStats := []
  containerBytes := []
  repackOk := true
  repackBytes := []

/-- A video job whose extracted audio is 0.2 s long, with validation,
extraction and remux all able to succeed. -/
def exShortVideoJob : VideoJob where
  validOk := true
  outputExists := false
  confirmAnswer := false
  extractAudioOk := true
  audio := exShortAudioEnv
  comp := exCompressedEnv
  remuxOk := true

/-- A fully successful video job. -/
def exVideoJob : VideoJob where
  validOk := true
  outputExists := false
  confirmAnswer := false
  extractAudioOk := true
  audio := exAudioEnv
  comp := exCompressedEnv
  remuxOk := true

/-- A concrete scratch tree: a root file plus `ppt/media/media1.wav`. -/
def exTree : List FsNode :=
  [FsNode.file "[Content_Types].xml" [60, 63],
   FsNode.dir "ppt" [FsNode.dir "media" [FsNode.file "media1.wav" [82, 73]]]]

/-- A concrete input archive: one bare directory entry with nothing under
it, and two file entries. -/
def exEntries : List ZipEntry :=
  [ZipEntry.dir ["docProps"],
   ZipEntry.file ["[Content_Types].xml"] [60, 63],
   ZipEntry.file ["ppt", "media", "media1.wav"] [82, 73]]

end Examples

section Claims

open AudioNormalizer PptxHandler Cli VideoCli

/-- C1: for every audio input whose decoded duration is at least 0.4 s and
whose measured integrated loudness is a finite value L, the gain recorded
in the returned stats equals `target_lufs - L` (plain signed subtraction,
no clamping), for any target, on both the native and the bridged path. -/
theorem c1_gain_is_signed_difference :
    (∀ (io : AudioEnv) (target st L : ℚ) (dn : Bool),
      ¬ get_audio_duration io.rate (pcmLen io.data) < 2/5 →
      io.measure (postDenoise dn (io.denoiseAttempt st io.data) io.data) = .finite L →
      io.writeOk = true →
      (normalize_native_format io target dn st).1 =
        some ⟨io.filename, L, target, target - L,
          get_audio_duration io.rate (pcmLen io.data)⟩) ∧
    (∀ (io : CompressedEnv) (target st L : ℚ) (dn : Bool),
      io.convertToWavOk = true →
      ¬ get_audio_duration io.rate (pcmLen io.data) < 2/5 →
      io.measure (postDenoise dn (io.denoiseAttempt st io.data) io.data) = .finite L →
      io.writeTempOk = true →
      io.convertFromWavOk = true →
      (normalize_compressed_format io target dn st).1 =
        some ⟨io.filename, L, target, target - L,
          get_audio_duration io.rate (pcmLen io.data)⟩) := by
  constructor
  · intro io target st L dn hdur hms hw
    simp [normalize_native_format, hdur, hms, hw]
  · intro io target st L dn hcv hdur hms hwt hcf
    simp [normalize_compressed_format, hcv, hdur, hms, hwt, hcf]

theorem c1_gain_is_signed_difference_witness :
    (¬ get_audio_duration exAudioEnv.rate (pcmLen exAudioEnv.data) < 2/5) ∧
    (normalize_native_format exAudioEnv (-16) false (1/2)).1 =
      some ⟨exAudioEnv.filename, -23, -16, -16 - (-23),
        get_audio_duration exAudioEnv.rate (pcmLen exAudioEnv.data)⟩ := by
  have hdur : ¬ get_audio_duration exAudioEnv.rate (pcmLen exAudioEnv.data) < 2/5 := by
    norm_num [exAudioEnv, get_audio_duration, pcmLen]
  exact ⟨hdur, c1_gain_is_signed_difference.1 exAudioEnv (-16) (1/2) (-23) false hdur rfl rfl⟩

/-- C3: audio strictly shorter than 0.4 s, and audio measuring as silence
(-inf) or NaN, is skipped (`None`) and the file on disk is not rewritten,
on both paths. -/
theorem c3_short_or_unmeasurable_is_skipped_unwritten :
    (∀ (io : AudioEnv) (target st : ℚ) (dn : Bool),
      get_audio_duration io.rate (pcmLen io.data) < 2/5 →
      normalize_native_format io target dn st = (none, false)) ∧
    (∀ (io : AudioEnv) (target st : ℚ) (dn : Bool),
      (io.measure (postDenoise dn (io.denoiseAttempt st io.data) io.data) = .negInf ∨
       io.measure (postDenoise dn (io.denoiseAttempt st io.data) io.data) = .nan) →
      normalize_native_format io target dn st = (none, false)) ∧
    (∀ (io : CompressedEnv) (target st : ℚ) (dn : Bool),
      get_audio_duration io.rate (pcmLen io.data) < 2/5 →
      normalize_compressed_format io target dn st = (none, false)) ∧
    (∀ (io : CompressedEnv) (target st : ℚ) (dn : Bool),
      (io.measure (postDenoise dn (io.denoiseAttempt st io.data) io.data) = .negInf ∨
       io.measure (postDenoise dn (io.denoiseAttempt st io.data) io.data) = .nan) →
      normalize_compressed_format io target dn st = (none, false)) := by
  refine ⟨?_, ?_, ?_, ?_⟩
  · intro io target st dn hdur
    simp [normalize_native_format, hdur]
  · intro io target st dn hm
    by_cases hdur : get_audio_duration io.rate (pcmLen io.data) < 2/5
    · simp [normalize_native_format, hdur]
    · rcases hm with hm | hm <;> simp [normalize_native_format, hdur, hm]
  · intro io target st dn hdur
    by_cases hcv : io.convertToWavOk <;>
      simp [normalize_compressed_format, hcv, hdur]
  · intro io target st dn hm
    by_cases hcv : io.convertToWavOk
    · by_cases hdur : get_audio_duration io.rate (pcmLen io.data) < 2/5
      · simp [normalize_compressed_format, hcv, hdur]
      · rcases hm with hm | hm <;> simp [normalize_compressed_format, hcv, hdur, hm]
    · simp [normalize_compressed_format, hcv]

theorem c3_short_or_unmeasurable_is_skipped_unwritten_witness :
    (get_audio_duration exShortAudioEnv.rate (pcmLen exShortAudioEnv.data) < 2/5) ∧
    normalize_native_format exShortAudioEnv (-16) false (1/2) = (none, false) ∧
    normalize_native_format exSilentAudioEnv (-16) false (1/2) = (none, false) ∧
    normalize_compressed_format exShortCompressedEnv (-16) false (1/2) = (none, false) ∧
    normalize_compressed_format exNanCompressedEnv (-16) false (1/2) = (none, false) := by
  have h1 : get_audio_duration exShortAudioEnv.rate (pcmLen exShortAudioEnv.data) < 2/5 := by
    norm_num [exShortAudioEnv, get_audio_duration, pcmLen]
  have h2 : get_audio_duration exShortCompressedEnv.rate (pcmLen exShortCompressedEnv.data) < 2/5 := by
    norm_num [exShortCompressedEnv, get_audio_duration, pcmLen]
  exact ⟨h1,
    c3_short_or_unmeasurable_is_skipped_unwritten.1 exShortAudioEnv (-16) (1/2) false h1,
    c3_short_or_unmeasurable_is_skipped_unwritten.2.1 exSilentAudioEnv (-16) (1/2) false
      (Or.inl rfl),
    c3_short_or_unmeasurable_is_skipped_unwritten.2.2.1 exShortCompressedEnv (-16) (1/2) false h2,
    c3_short_or_unmeasurable_is_skipped_unwritten.2.2.2 exNanCompressedEnv (-16) (1/2) false
      (Or.inr rfl)⟩

/-- C5: if the denoising call raises, the pipeline behaves exactly as if
denoising had not been requested at all: the sample variable is unchanged
and the asset is still measured, gain-adjusted and written, on both
paths. -/
theorem c5_denoise_failure_continues_with_original :
    (∀ (io : AudioEnv) (target st : ℚ) (e : String),
      io.denoiseAttempt st io.data = .error e →
      normalize_native_format io target true st = normalize_native_format io target false st) ∧
    (∀ (io : CompressedEnv) (target st : ℚ) (e : String),
      io.denoiseAttempt st io.data = .error e →
      normalize_compressed_format io target true st =
        normalize_compressed_format io target false st) := by
  constructor
  · intro io target st e h
    simp [normalize_native_format, postDenoise, h]
  · intro io target st e h
    simp [normalize_compressed_format, postDenoise, h]

theorem c5_denoise_failure_continues_with_original_witness :
    (exAudioEnvFail.denoiseAttempt (1/2) exAudioEnvFail.data = .error "noisereduce crashed") ∧
    normalize_native_format exAudioEnvFail (-16) true (1/2) =
      normalize_native_format exAudioEnvFail (-16) false (1/2) ∧
    normalize_compressed_format exCompressedEnvFail (-16) true (1/2) =
      normalize_compressed_format exCompressedEnvFail (-16) false (1/2) :=
  ⟨rfl,
   c5_denoise_failure_continues_with_original.1 exAudioEnvFail (-16) (1/2)
     "noisereduce crashed" rfl,
   c5_denoise_failure_continues_with_original.2 exCompressedEnvFail (-16) (1/2)
     "noisereduce crashed" rfl⟩

/-- C6: dispatch is by lowercased extension — wav/flac/ogg native,
mp3/m4a/wma/aac bridged through an intermediate 48 kHz stereo 16-bit PCM
WAV with a fixed per-format codec+bitrate mapping (copy/passthrough for
unmapped targets), anything else skipped without touching the file. -/
theorem c6_dispatch_by_lowercased_extension :
    (∀ (nio : AudioEnv) (cio : CompressedEnv) (suffix : String) (target st : ℚ) (dn : Bool),
      (fileFormat suffix ∈ nativeFormats →
        normalize_audio_file nio cio suffix target dn st =
          normalize_native_format nio target dn st) ∧
      (fileFormat suffix ∈ bridgedFormats →
        normalize_audio_file nio cio suffix target dn st =
          normalize_compressed_format cio target dn st) ∧
      (fileFormat suffix ∉ nativeFormats → fileFormat suffix ∉ bridgedFormats →
        normalize_audio_file nio cio suffix target dn st = (none, false))) ∧
    (∀ i o, convert_to_wav_cmd i o =
      ["ffmpeg", "-i", i, "-y", "-acodec", "pcm_s16le", "-ar", "48000",
       "-ac", "2", "-loglevel", "error", o]) ∧
    codec_args "mp3" = ["-acodec", "libmp3lame", "-b:a", "192k"] ∧
    codec_args "m4a" = ["-acodec", "aac", "-b:a", "192k"] ∧
    codec_args "wma" = ["-acodec", "wmav2", "-b:a", "192k"] ∧
    codec_args "aac" = ["-acodec", "aac", "-b:a", "192k"] ∧
    (∀ fmt, fmt ∉ ["mp3", "m4a", "wma", "aac"] →
      codec_args fmt = ["-acodec", "copy"]) ∧
    (∀ i o fmt, convert_from_wav_cmd i o fmt =
      ["ffmpeg", "-i", i, "-y"] ++ codec_args fmt ++ ["-loglevel", "error", o]) := by
  refine ⟨?_, fun i o => rfl, rfl, rfl, rfl, rfl, ?_, fun i o fmt => rfl⟩
  · intro nio cio suffix target st dn
    refine ⟨fun h => ?_, fun h => ?_, fun h1 h2 => ?_⟩
    · simp [normalize_audio_file, h]
    · have hn : fileFormat suffix ∉ nativeFormats := by
        simp only [bridgedFormats, List.mem_cons, List.not_mem_nil, or_false] at h
        rcases h with h | h | h | h <;> (rw [h]; decide)
      simp [normalize_audio_file, hn, h]
    · simp [normalize_audio_file, h1, h2]
  · intro fmt hfmt
    simp only [List.mem_cons, List.not_mem_nil, or_false, not_or] at hfmt
    obtain ⟨h1, h2, h3, h4⟩ := hfmt
    have g1 : ("mp3" == fmt) = false := beq_eq_false_iff_ne.mpr (Ne.symm h1)
    have g2 : ("m4a" == fmt) = false := beq_eq_false_iff_ne.mpr (Ne.symm h2)
    have g3 : ("wma" == fmt) = false := beq_eq_false_iff_ne.mpr (Ne.symm h3)
    have g4 : ("aac" == fmt) = false := beq_eq_false_iff_ne.mpr (Ne.symm h4)
    simp [codec_args, codec_map, List.find?, g1, g2, g3, g4]

theorem c6_dispatch_by_lowercased_extension_witness :
    (fileFormat ".WAV" ∈ nativeFormats) ∧
    normalize_audio_file exAudioEnv exCompressedEnv ".WAV" (-16) false (1/2) =
      normalize_native_format exAudioEnv (-16) false (1/2) ∧
    (fileFormat ".Mp3" ∈ bridgedFormats) ∧
    normalize_audio_file exAudioEnv exCompressedEnv ".Mp3" (-16) false (1/2) =
      normalize_compressed_format exCompressedEnv (-16) false (1/2) ∧
    ("txt" ∉ ["mp3", "m4a", "wma", "aac"]) ∧
    codec_args "txt" = ["-acodec", "copy"] ∧
    normalize_audio_file exAudioEnv exCompressedEnv ".txt" (-16) false (1/2) =
      (none, false) :=
  ⟨by decide,
   (c6_dispatch_by_lowercased_extension.1 exAudioEnv exCompressedEnv ".WAV"
     (-16) (1/2) false).1 (by decide),
   by decide,
   (c6_dispatch_by_lowercased_extension.1 exAudioEnv exCompressedEnv ".Mp3"
     (-16) (1/2) false).2.1 (by decide),
   by decide,
   c6_dispatch_by_lowercased_extension.2.2.2.2.2.2.1 "txt" (by decide),
   (c6_dispatch_by_lowercased_extension.1 exAudioEnv exCompressedEnv ".txt"
     (-16) (1/2) false).2.2 (by decide) (by decide)⟩

/-- A video job whose extracted audio is too short exits with status 1:
shared computation used below. -/
lemma short_video_job_exits_one :
    process_single_video exShortVideoJob true (-16) false (1/2) = 1 := by
  have hdur : get_audio_duration exShortAudioEnv.rate (pcmLen exShortAudioEnv.data) < 2/5 := by
    norm_num [exShortAudioEnv, get_audio_duration, pcmLen]
  have hw : fileFormat ".wav" ∈ nativeFormats := by decide
  have hskip : (normalize_audio_file exShortAudioEnv exCompressedEnv ".wav"
      (-16) false (1/2)).1 = none := by
    simp [normalize_audio_file, hw, normalize_native_format, hdur]
  simp only [one_div] at hskip
  simp [process_single_video, exShortVideoJob, hskip]

/-- C4 counterexample: a video job whose validation, audio extraction and
remux would all succeed, but whose audio is 0.2 s long — normalization is
skipped and the per-job exit status is 1, not 0. -/
theorem c4_counterexample_video_skip_exits_nonzero :
    exShortVideoJob.validOk = true ∧
    exShortVideoJob.extractAudioOk = true ∧
    exShortVideoJob.remuxOk = true ∧
    (normalize_audio_file exShortVideoJob.audio exShortVideoJob.comp ".wav"
      (-16) false (1/2)).1 = none ∧
    process_single_video exShortVideoJob true (-16) false (1/2) = 1 := by
  have hdur : get_audio_duration exShortAudioEnv.rate (pcmLen exShortAudioEnv.data) < 2/5 := by
    norm_num [exShortAudioEnv, get_audio_duration, pcmLen]
  have hw : fileFormat ".wav" ∈ nativeFormats := by decide
  have hskip : (normalize_audio_file exShortAudioEnv exCompressedEnv ".wav"
      (-16) false (1/2)).1 = none := by
    simp [normalize_audio_file, hw, normalize_native_format, hdur]
  exact ⟨rfl, rfl, rfl, hskip, short_video_job_exits_one⟩

/-- C4 (amended): in the PPTX path a normalization skip never affects the
per-job status — any job whose validation, extraction and repack succeed
exits 0 whatever the stats list — but in the video path a skipped
normalization (a `None` from `normalize_audio_file`) makes the per-job
status 1 before the remux is attempted. -/
theorem c4_amended_skips_and_exit_status :
    (∀ (job : PptxJob) (force : Bool),
      job.validOk = true → job.extractOk = true → job.repackOk = true →
      (job.outputExists = false ∨ force = true ∨ job.confirmAnswer = true) →
      (process_single_pptx job force).exit = 0) ∧
    (∀ (job : VideoJob) (force : Bool) (target st : ℚ) (dn : Bool),
      job.validOk = true → job.extractAudioOk = true →
      (job.outputExists = false ∨ force = true ∨ job.confirmAnswer = true) →
      (normalize_audio_file job.audio job.comp ".wav" target dn st).1 = none →
      process_single_video job force target dn st = 1) := by
  constructor
  · intro job force hv he hr hov
    have hcond : (job.outputExists && !force && !job.confirmAnswer) = false := by
      rcases hov with h | h | h <;> simp [h]
    by_cases ha : job.audioFiles.isEmpty <;>
      simp [process_single_pptx, hv, he, hr, hcond, ha]
  · intro job force target st dn hv he hov hskip
    have hcond : (job.outputExists && !force && !job.confirmAnswer) = false := by
      rcases hov with h | h | h <;> simp [h]
    simp [process_single_video, hv, he, hcond, hskip]

theorem c4_amended_skips_and_exit_status_witness :
    exPptxJobAllSkipped.normStats = [] ∧
    (process_single_pptx exPptxJobAllSkipped true).exit = 0 ∧
    process_single_video exShortVideoJob true (-16) false (1/2) = 1 := by
  have hdur : get_audio_duration exShortAudioEnv.rate (pcmLen exShortAudioEnv.data) < 2/5 := by
    norm_num [exShortAudioEnv, get_audio_duration, pcmLen]
  have hw : fileFormat ".wav" ∈ nativeFormats := by decide
  have hskip : (normalize_audio_file exShortVideoJob.audio exShortVideoJob.comp ".wav"
      (-16) false (1/2)).1 = none := by
    show (normalize_audio_file exShortAudioEnv exCompressedEnv ".wav"
      (-16) false (1/2)).1 = none
    simp [normalize_audio_file, hw, normalize_native_format, hdur]
  exact ⟨rfl,
    c4_amended_skips_and_exit_status.1 exPptxJobAllSkipped true rfl rfl rfl (Or.inl rfl),
    c4_amended_skips_and_exit_status.2 exShortVideoJob true (-16) (1/2) false
      rfl rfl (Or.inl rfl) hskip⟩

/-- C7: when extraction finds no recognized audio entry, the job writes
the output by copying the original container byte-for-byte (output bytes
equal input bytes) and reports success — in both `process_single_pptx`
and the inline single-file branch of `main`. -/
theorem c7_no_audio_copies_original_verbatim :
    ∀ (job : PptxJob) (force : Bool),
      job.validOk = true → job.extractOk = true → job.audioFiles = [] →
      (job.outputExists = false ∨ force = true ∨ job.confirmAnswer = true) →
      process_single_pptx job force =
        ⟨0, [OutputAction.copyOriginal], some job.containerBytes⟩ ∧
      mainSingleFile job force =
        ⟨0, [OutputAction.copyOriginal], some job.containerBytes⟩ := by
  intro job force hv he ha hov
  have hcond : (job.outputExists && !force && !job.confirmAnswer) = false := by
    rcases hov with h | h | h <;> simp [h]
  constructor <;> simp [process_single_pptx, mainSingleFile, hv, he, ha, hcond]

theorem c7_no_audio_copies_original_verbatim_witness :
    exPptxJobNoAudio.audioFiles = [] ∧
    process_single_pptx exPptxJobNoAudio true =
      ⟨0, [OutputAction.copyOriginal], some exPptxJobNoAudio.containerBytes⟩ :=
  ⟨rfl, (c7_no_audio_copies_original_verbatim exPptxJobNoAudio true
    rfl rfl rfl (Or.inl rfl)).1⟩

/-- The error counter of the batch loop counts exactly the failing jobs. -/
lemma foldl_count_error {A : Type} (f : A → ℕ) :
    ∀ (jobs : List A) (a b : ℕ),
      (jobs.foldl (fun (acc : ℕ × ℕ) j =>
          if f j = 0 then (acc.1 + 1, acc.2) else (acc.1, acc.2 + 1)) (a, b)).2 =
        b + jobs.countP (fun j => f j != 0) := by
  intro jobs
  induction jobs with
  | nil => intro a b; simp
  | cons x xs ih =>
    intro a b
    by_cases h : f x = 0
    · simp [h, ih, List.countP_cons]
    · simp [h, ih, List.countP_cons]
      omega

/-- The error counter of the batch loop is zero iff every job succeeded. -/
lemma foldl_count_error_zero_iff {A : Type} (f : A → ℕ) (jobs : List A) :
    ((jobs.foldl (fun (acc : ℕ × ℕ) j =>
        if f j = 0 then (acc.1 + 1, acc.2) else (acc.1, acc.2 + 1)) (0, 0)).2 = 0
      ↔ ∀ j ∈ jobs, f j = 0) := by
  rw [foldl_count_error]
  simp [List.countP_eq_zero]

/-- C9: a failing job does not stop the batch — the exit code is computed
from the failure count over the whole job list — and the batch exit code
is 0 iff no job failed; for both the PPTX and the video batch driver. -/
theorem c9_batch_exit_iff_no_failures :
    (∀ (jobs : List PptxJob) (force : Bool),
      Cli.process_batch_directory true true jobs force =
        (if jobs.countP (fun job => (process_single_pptx job force).exit != 0) = 0
         then 0 else 1)) ∧
    (∀ (jobs : List PptxJob) (force : Bool),
      (Cli.process_batch_directory true true jobs force = 0 ↔
        ∀ job ∈ jobs, (process_single_pptx job force).exit = 0)) ∧
    (∀ (jobs : List VideoJob) (force : Bool) (target st : ℚ) (dn : Bool),
      VideoCli.process_batch_directory true true jobs force target dn st =
        (if jobs.countP
            (fun job => process_single_video job force target dn st != 0) = 0
         then 0 else 1)) ∧
    (∀ (jobs : List VideoJob) (force : Bool) (target st : ℚ) (dn : Bool),
      (VideoCli.process_batch_directory true true jobs force target dn st = 0 ↔
        ∀ job ∈ jobs, process_single_video job force target dn st = 0)) := by
  have hp : ∀ (jobs : List PptxJob) (force : Bool),
      Cli.process_batch_directory true true jobs force =
        (if jobs.countP (fun job => (process_single_pptx job force).exit != 0) = 0
         then 0 else 1) := by
    intro jobs force
    cases jobs with
    | nil => simp [Cli.process_batch_directory]
    | cons x xs =>
      rw [Cli.process_batch_directory]
      simp only [if_neg, List.isEmpty_cons]
      rw [foldl_count_error (fun job => (process_single_pptx job force).exit)]
      simp
  have hv : ∀ (jobs : List VideoJob) (force : Bool) (target st : ℚ) (dn : Bool),
      VideoCli.process_batch_directory true true jobs force target dn st =
        (if jobs.countP
            (fun job => process_single_video job force target dn st != 0) = 0
         then 0 else 1) := by
    intro jobs force target st dn
    cases jobs with
    | nil => simp [VideoCli.process_batch_directory]
    | cons x xs =>
      rw [VideoCli.process_batch_directory]
      simp only [if_neg, List.isEmpty_cons]
      rw [foldl_count_error (fun job => process_single_video job force target dn st)]
      simp
  refine ⟨hp, ?_, hv, ?_⟩
  · intro jobs force
    rw [hp]
    by_cases h : jobs.countP (fun job => (process_single_pptx job force).exit != 0) = 0
    · rw [if_pos h, List.countP_eq_zero] at *
      exact iff_of_true rfl (by simpa using h)
    · rw [if_neg h]
      refine iff_of_false (by omega) (fun hall => h ?_)
      rw [List.countP_eq_zero]
      simpa using hall
  · intro jobs force target st dn
    rw [hv]
    by_cases h : jobs.countP
        (fun job => process_single_video job force target dn st != 0) = 0
    · rw [if_pos h, List.countP_eq_zero] at *
      exact iff_of_true rfl (by simpa using h)
    · rw [if_neg h]
      refine iff_of_false (by omega) (fun hall => h ?_)
      rw [List.countP_eq_zero]
      simpa using hall

theorem c9_batch_exit_iff_no_failures_witness :
    (∀ job ∈ [exPptxJobNoAudio, exPptxJobAllSkipped],
      (process_single_pptx job true).exit = 0) ∧
    Cli.process_batch_directory true true [exPptxJobNoAudio, exPptxJobAllSkipped] true = 0 ∧
    VideoCli.process_batch_directory true true [exShortVideoJob] true (-16) false (1/2) ≠ 0 := by
  have hall : ∀ job ∈ [exPptxJobNoAudio, exPptxJobAllSkipped],
      (process_single_pptx job true).exit = 0 := by
    intro job hj
    simp only [List.mem_cons, List.not_mem_nil, or_false] at hj
    rcases hj with h | h <;> (subst h; rfl)
  refine ⟨hall, (c9_batch_exit_iff_no_failures.2.1 _ true).mpr hall, fun h0 => ?_⟩
  have := (c9_batch_exit_iff_no_failures.2.2.2 [exShortVideoJob] true (-16) (1/2) false).mp
    h0 exShortVideoJob (by simp)
  rw [short_video_job_exits_one] at this
  exact one_ne_zero this

/-- A column of a row list has one entry per row. -/
lemma length_getCol (rows : List (List ℚ)) (j : ℕ) :
    (getCol rows j).length = rows.length := by
  simp [getCol]

/-- `column_stack` produces one row per entry of its first column. -/
lemma columnStack_length (cols : List (List ℚ)) :
    (columnStack cols).length = (cols.headD []).length := by
  simp [columnStack]

/-- Every row of `column_stack cols` has one entry per column. -/
lemma columnStack_row_length (cols : List (List ℚ)) :
    ∀ r ∈ columnStack cols, r.length = cols.length := by
  intro r hr
  simp only [columnStack, List.mem_map, List.mem_range] at hr
  obtain ⟨i, _, rfl⟩ := hr
  simp

/-- Reading a list back entry by entry reproduces it. -/
lemma range_map_getD (L : List ℚ) :
    (List.range L.length).map (fun i => L.getD i 0) = L := by
  apply List.ext_getElem (by simp)
  intro i h1 h2
  simp only [List.getElem_map, List.getElem_range]
  rw [List.getD_eq_getElem _ _ h2]

/-- Extracting column `j` from `column_stack cols` returns column `j` of
`cols`, provided it has as many entries as the first column. -/
lemma getCol_columnStack (cols : List (List ℚ)) (j : ℕ) (hj : j < cols.length)
    (hlen : (cols.getD j []).length = (cols.headD []).length) :
    getCol (columnStack cols) j = cols.getD j [] := by
  unfold getCol columnStack
  rw [List.map_map]
  have hfun : ((fun r => List.getD r j 0) ∘ fun i => cols.map (fun c => c.getD i 0)) =
      (fun i => (cols.getD j []).getD i 0) := by
    funext i
    simp only [Function.comp]
    rw [List.getD_eq_getElem (cols.map (fun c => c.getD i 0)) 0 (by simpa using hj),
      List.getElem_map, List.getD_eq_getElem _ _ hj]
  rw [hfun, ← hlen, range_map_getD]

/-- C8: for every PCM input (mono or multichannel) and every strength in
[0, 1], `denoise_audio` preserves the sample count and the channel count,
processing channels independently and recombining them in original order
(assuming the per-channel noise-reduction call preserves length). -/
theorem c8_denoise_preserves_shape :
    ∀ (rn : ℚ → List ℚ → List ℚ) (rn2 : ℚ → List (List ℚ) → List (List ℚ)) (s : ℚ),
      0 ≤ s → s ≤ 1 →
      (∀ t x, (rn t x).length = x.length) →
      (∀ xs, pcmLen (denoise_audio rn rn2 s (.mono xs)) = pcmLen (.mono xs) ∧
        pcmChannels (denoise_audio rn rn2 s (.mono xs)) = pcmChannels (.mono xs)) ∧
      (∀ (ncols : ℕ) (rows : List (List ℚ)), 1 < ncols →
        pcmLen (denoise_audio rn rn2 s (.multi ncols rows)) = rows.length ∧
        pcmChannels (denoise_audio rn rn2 s (.multi ncols rows)) = ncols ∧
        (∀ r ∈ pcmRows (denoise_audio rn rn2 s (.multi ncols rows)), r.length = ncols) ∧
        (∀ j, j < ncols →
          getCol (pcmRows (denoise_audio rn rn2 s (.multi ncols rows))) j =
            rn s (getCol rows j))) := by
  intro rn rn2 s _ _ hrn
  constructor
  · intro xs
    exact ⟨by simp [denoise_audio, pcmLen, hrn], by simp [denoise_audio, pcmChannels]⟩
  · intro ncols rows hn
    have hd : denoise_audio rn rn2 s (.multi ncols rows) =
        .multi ncols (columnStack
          ((List.range ncols).map (fun channel => rn s (getCol rows channel)))) := by
      simp [denoise_audio, hn]
    set channels := (List.range ncols).map (fun channel => rn s (getCol rows channel))
      with hch
    have hclen : channels.length = ncols := by simp [hch]
    have hhead : channels.headD [] = rn s (getCol rows 0) := by
      obtain ⟨m, rfl⟩ : ∃ m, ncols = m + 1 := ⟨ncols - 1, by omega⟩
      rw [hch, List.range_succ_eq_map]
      simp
    have hn0 : (channels.headD []).length = rows.length := by
      rw [hhead, hrn, length_getCol]
    refine ⟨?_, ?_, ?_, ?_⟩
    · rw [hd]
      show (columnStack channels).length = rows.length
      rw [columnStack_length, hn0]
    · rw [hd]
      rfl
    · rw [hd]
      intro r hr
      have := columnStack_row_length channels r hr
      rwa [hclen] at this
    · intro j hj
      rw [hd]
      show getCol (columnStack channels) j = rn s (getCol rows j)
      have hj' : j < channels.length := by omega
      have hgd : channels.getD j [] = rn s (getCol rows j) := by
        rw [List.getD_eq_getElem _ _ hj']
        simp [hch]
      rw [getCol_columnStack channels j hj'
        (by rw [hgd, hrn, length_getCol, hn0]), hgd]

theorem c8_denoise_preserves_shape_witness :
    ((0 : ℚ) ≤ 1/2) ∧ ((1 : ℚ)/2 ≤ 1) ∧ ((1 : ℕ) < 2) ∧
    pcmLen (denoise_audio (fun _ x => x) (fun _ r => r) (1/2)
      (.mono [1, 2, 3])) = pcmLen (PCM.mono [1, 2, 3]) ∧
    pcmLen (denoise_audio (fun _ x => x) (fun _ r => r) (1/2)
      (.multi 2 [[1, 2], [3, 4], [5, 6]])) = 3 ∧
    pcmChannels (denoise_audio (fun _ x => x) (fun _ r => r) (1/2)
      (.multi 2 [[1, 2], [3, 4], [5, 6]])) = 2 := by
  have h1 : (0 : ℚ) ≤ 1/2 := by norm_num
  have h2 : (1 : ℚ)/2 ≤ 1 := by norm_num
  have hth := c8_denoise_preserves_shape (fun _ x => x) (fun _ r => r) (1/2) h1 h2
    (fun _ _ => rfl)
  have hmulti := hth.2 2 [[1, 2], [3, 4], [5, 6]] (by norm_num)
  exact ⟨h1, h2, by norm_num, (hth.1 [1, 2, 3]).1, hmulti.1, hmulti.2.1⟩

/-- The walk of a concatenation is the concatenation of the walks. -/
lemma walkFiles_append (a b : List FsNode) :
    walkFiles (a ++ b) = walkFiles a ++ walkFiles b := by
  induction a using walkFiles.induct with
  | case1 => simp [walkFiles]
  | case2 n c rest ih => simp [walkFiles, ih]
  | case3 n ch rest ihch ihrest => simp [walkFiles, ihrest]

/-- Every walk entry has a nonempty path whose head names a top-level
node. -/
lemma walkFiles_mem_head :
    ∀ (ns : List FsNode) (p : List String) (c : List ℕ), (p, c) ∈ walkFiles ns →
      ∃ n q, p = n :: q ∧ n ∈ ns.map nodeName := by
  intro ns
  induction ns using walkFiles.induct with
  | case1 => simp [walkFiles]
  | case2 n c2 rest ih =>
    intro p c hp
    rw [walkFiles] at hp
    rcases List.mem_cons.mp hp with h | h
    · injection h with h1 h2
      exact ⟨n, [], h1, by simp [nodeName]⟩
    · obtain ⟨n2, q, rfl, hmem⟩ := ih p c h
      exact ⟨n2, q, rfl, by simp only [List.map_cons]; exact List.mem_cons_of_mem _ hmem⟩
  | case3 n ch rest ihch ihrest =>
    intro p c hp
    rw [walkFiles] at hp
    rcases List.mem_append.mp hp with h | h
    · obtain ⟨⟨a, b⟩, _, heq⟩ := List.mem_map.mp h
      injection heq with h1 h2
      exact ⟨n, a, h1.symm, by simp [nodeName]⟩
    · obtain ⟨n2, q, rfl, hmem⟩ := ihrest p c h
      exact ⟨n2, q, rfl, by simp only [List.map_cons]; exact List.mem_cons_of_mem _ hmem⟩

/-- The empty relative path never appears in a walk. -/
lemma walkFiles_nil_not_mem (ns : List FsNode) (c : List ℕ) :
    ([], c) ∉ walkFiles ns := by
  intro h
  obtain ⟨n, q, heq, _⟩ := walkFiles_mem_head ns [] c h
  cases heq

/-- An entry of the walk is exactly a regular file of the tree at that
relative path. -/
lemma walkFiles_mem_iff :
    ∀ (ns : List FsNode) (p : List String) (c : List ℕ),
      ((p, c) ∈ walkFiles ns ↔ isFileAt ns p c) := by
  intro ns
  induction ns using walkFiles.induct with
  | case1 =>
    intro p c
    rcases p with _ | ⟨n2, _ | ⟨m, p⟩⟩ <;> simp [walkFiles, isFileAt]
  | case2 n c2 rest ih =>
    intro p c
    rcases p with _ | ⟨n2, _ | ⟨m, p⟩⟩ <;>
      simp [walkFiles, isFileAt, ih, List.mem_cons, walkFiles_nil_not_mem]
  | case3 n ch rest ihch ihrest =>
    intro p c
    rcases p with _ | ⟨n2, _ | ⟨m, p⟩⟩
    · simp [walkFiles, isFileAt, walkFiles_nil_not_mem]
    · simp [walkFiles, isFileAt, walkFiles_nil_not_mem, ihrest]
    · simp only [walkFiles, isFileAt, List.mem_append, List.mem_map, List.mem_cons]
      constructor
      · rintro (⟨⟨a, b⟩, hab, heq⟩ | h)
        · injection heq with h1 h2
          injection h1 with h1a h1b
          subst h1a h1b h2
          exact ⟨ch, Or.inl rfl, (ihch _ _).mp hab⟩
        · obtain ⟨ch1, h1, h2⟩ := (ihrest _ _).mp h
          exact ⟨ch1, Or.inr h1, h2⟩
      · rintro ⟨ch1, h1 | h1, h2⟩
        · injection h1 with h1a h1b
          subst h1a h1b
          exact Or.inl ⟨(m :: p, c), (ihch _ _).mpr h2, rfl⟩
        · exact Or.inr ((ihrest _ _).mpr ⟨ch1, h1, h2⟩)

/-- Consing onto a well-formed level: distinct head name, well-formed
head, well-formed tail. -/
lemma treeWf_cons (x : FsNode) (rest : List FsNode) :
    treeWf (x :: rest) = true ↔
      (nodeName x ∉ rest.map nodeName ∧ nodeWf x = true ∧ treeWf rest = true) := by
  simp only [treeWf, allWf, Bool.and_eq_true, decide_eq_true_eq, List.map_cons,
    List.nodup_cons]
  tauto

/-- A directory node is well-formed iff its children form a well-formed
tree. -/
lemma nodeWf_dir (n : String) (ch : List FsNode) :
    nodeWf (.dir n ch) = treeWf ch := rfl

/-- On a well-formed tree, the walk lists pairwise-distinct archive
names: no relative path occurs twice. -/
lemma walkFiles_nodup :
    ∀ ns : List FsNode, treeWf ns = true → ((walkFiles ns).map Prod.fst).Nodup := by
  intro ns
  induction ns using walkFiles.induct with
  | case1 => simp [walkFiles]
  | case2 n c rest ih =>
    intro hwf
    obtain ⟨hname, _, hrest⟩ := (treeWf_cons _ _).mp hwf
    rw [walkFiles, List.map_cons, List.nodup_cons]
    refine ⟨fun hmem => ?_, ih hrest⟩
    obtain ⟨⟨p, c2⟩, hpc, hfst⟩ := List.mem_map.mp hmem
    obtain ⟨n2, q, rfl, hhd⟩ := walkFiles_mem_head rest p c2 hpc
    simp only at hfst
    obtain ⟨rfl, rfl⟩ : n2 = n ∧ q = [] := by
      constructor <;> (cases hfst; rfl)
    exact hname (by simpa [nodeName] using hhd)
  | case3 n ch rest ihch ihrest =>
    intro hwf
    obtain ⟨hname, hnode, hrest⟩ := (treeWf_cons _ _).mp hwf
    rw [nodeWf_dir] at hnode
    rw [walkFiles, List.map_append, List.nodup_append]
    refine ⟨?_, ihrest hrest, ?_⟩
    · rw [List.map_map]
      have : (Prod.fst ∘ fun pc : List String × List ℕ => (n :: pc.1, pc.2)) =
          (fun pc : List String × List ℕ => n :: pc.1) := rfl
      rw [this]
      have hinj : ((walkFiles ch).map Prod.fst).Nodup := ihch hnode
      have : (walkFiles ch).map (fun pc : List String × List ℕ => n :: pc.1) =
          ((walkFiles ch).map Prod.fst).map (fun q => n :: q) := by
        rw [List.map_map]; rfl
      rw [this]
      exact hinj.map (fun a b h => by injection h)
    · intro a ha hb
      rw [List.map_map] at ha
      obtain ⟨⟨p, c2⟩, _, heq⟩ := List.mem_map.mp ha
      obtain ⟨⟨q, c3⟩, hqc, hfst⟩ := List.mem_map.mp hb
      obtain ⟨n2, q2, rfl, hhd⟩ := walkFiles_mem_head rest q c3 hqc
      simp only [Function.comp] at heq
      rw [← heq] at hfst
      have : n2 = n := by cases hfst; rfl
      subst this
      exact hname (by simpa [nodeName] using hhd)

/-- Materializing a file never removes an existing walk entry. -/
lemma walkFiles_subset_insertPath :
    ∀ (ns : List FsNode) (p : List String) (c : List ℕ)
      (e : List String × List ℕ),
      e ∈ walkFiles ns → e ∈ walkFiles (insertPath ns p c) := by
  intro ns p c
  induction ns, p, c using insertPath.induct with
  | case1 ns x => intro e he; simpa [insertPath] using he
  | case2 ns n c =>
    intro e he
    rw [insertPath, walkFiles_append]
    exact List.mem_append_left _ he
  | case3 n q p c ih => intro e he; exact absurd he (by simp [walkFiles])
  | case4 ch rest n q p c ih =>
    intro e he
    rw [insertPath, if_pos rfl, walkFiles] at *
    rcases List.mem_append.mp he with h | h
    · obtain ⟨a, ha, rfl⟩ := List.mem_map.mp h
      exact List.mem_append_left _ (List.mem_map_of_mem _ (ih a ha))
    · exact List.mem_append_right _ h
  | case5 m ch rest n q p c hne ih =>
    intro e he
    rw [insertPath, if_neg hne, walkFiles]
    rw [walkFiles] at he
    rcases List.mem_append.mp he with h | h
    · exact List.mem_append_left _ h
    · exact List.mem_append_right _ (ih e h)
  | case6 m d rest n q p c ih =>
    intro e he
    rw [insertPath, walkFiles]
    rw [walkFiles] at he
    rcases List.mem_cons.mp he with h | h
    · exact h ▸ List.mem_cons_self _ _
    · exact List.mem_cons_of_mem _ (ih e h)

/-- Materializing a file at a nonempty path puts that entry in the walk. -/
lemma insertPath_mem_walkFiles :
    ∀ (ns : List FsNode) (p : List String) (c : List ℕ), p ≠ [] →
      (p, c) ∈ walkFiles (insertPath ns p c) := by
  intro ns p c
  induction ns, p, c using insertPath.induct with
  | case1 ns x => intro h; cases h rfl
  | case2 ns n c =>
    intro _
    rw [insertPath, walkFiles_append]
    exact List.mem_append_right _ (by simp [walkFiles])
  | case3 n q p c ih =>
    intro _
    rw [insertPath, walkFiles]
    exact List.mem_append_left _ (List.mem_map_of_mem _ (ih (by simp)))
  | case4 ch rest n q p c ih =>
    intro _
    rw [insertPath, if_pos rfl, walkFiles]
    exact List.mem_append_left _ (List.mem_map_of_mem _ (ih (by simp)))
  | case5 m ch rest n q p c hne ih =>
    intro _
    rw [insertPath, if_neg hne, walkFiles]
    exact List.mem_append_right _ (ih (by simp))
  | case6 m d rest n q p c ih =>
    intro _
    rw [insertPath, walkFiles]
    exact List.mem_cons_of_mem _ (ih (by simp))

/-- Materializing a file adds nothing to the walk beyond that entry. -/
lemma walkFiles_insertPath_subset :
    ∀ (ns : List FsNode) (p : List String) (c : List ℕ)
      (e : List String × List ℕ),
      e ∈ walkFiles (insertPath ns p c) → e ∈ walkFiles ns ∨ e = (p, c) := by
  intro ns p c
  induction ns, p, c using insertPath.induct with
  | case1 ns x => intro e he; exact Or.inl (by simpa [insertPath] using he)
  | case2 ns n c =>
    intro e he
    rw [insertPath, walkFiles_append] at he
    rcases List.mem_append.mp he with h | h
    · exact Or.inl h
    · simp only [walkFiles, List.mem_cons, List.not_mem_nil, or_false] at h
      exact Or.inr h
  | case3 n q p c ih =>
    intro e he
    rw [insertPath, walkFiles] at he
    rcases List.mem_append.mp he with h | h
    · obtain ⟨a, ha, rfl⟩ := List.mem_map.mp h
      rcases ih a ha with h2 | h2
      · exact absurd h2 (by simp [walkFiles])
      · exact Or.inr (by simp [h2])
    · exact absurd h (by simp [walkFiles])
  | case4 ch rest n q p c ih =>
    intro e he
    rw [insertPath, if_pos rfl, walkFiles] at he
    rcases List.mem_append.mp he with h | h
    · obtain ⟨a, ha, rfl⟩ := List.mem_map.mp h
      rcases ih a ha with h2 | h2
      · refine Or.inl ?_
        rw [walkFiles]
        exact List.mem_append_left _ (List.mem_map_of_mem _ h2)
      · exact Or.inr (by simp [h2])
    · refine Or.inl ?_
      rw [walkFiles]
      exact List.mem_append_right _ h
  | case5 m ch rest n q p c hne ih =>
    intro e he
    rw [insertPath, if_neg hne, walkFiles] at he
    rcases List.mem_append.mp he with h | h
    · refine Or.inl ?_
      rw [walkFiles]
      exact List.mem_append_left _ h
    · rcases ih e h with h2 | h2
      · refine Or.inl ?_
        rw [walkFiles]
        exact List.mem_append_right _ h2
      · exact Or.inr h2
  | case6 m d rest n q p c ih =>
    intro e he
    rw [insertPath, walkFiles] at he
    rcases List.mem_cons.mp he with h | h
    · refine Or.inl ?_
      rw [walkFiles]
      exact h ▸ List.mem_cons_self _ _
    · rcases ih e h with h2 | h2
      · refine Or.inl ?_
        rw [walkFiles]
        exact List.mem_cons_of_mem _ h2
      · exact Or.inr h2

/-- Materializing a bare directory leaves the walk unchanged. -/
lemma walkFiles_insertDirPath :
    ∀ (ns : List FsNode) (p : List String),
      walkFiles (insertDirPath ns p) = walkFiles ns := by
  intro ns p
  induction ns, p using insertDirPath.induct with
  | case1 ns => rw [insertDirPath]
  | case2 n p ih =>
    rw [insertDirPath]
    simp [walkFiles, ih]
  | case3 ch rest n p ih =>
    rw [insertDirPath, if_pos rfl, walkFiles, ih, walkFiles]
  | case4 m ch rest n p hne ih =>
    rw [insertDirPath, if_neg hne, walkFiles, ih, walkFiles]
  | case5 m d rest n p ih =>
    rw [insertDirPath, walkFiles, ih, walkFiles]

/-- Every file entry of the archive (at its necessarily nonempty path)
survives into the walk of the extracted tree, whatever else is
extracted around it. -/
lemma extractall_preserves_file_entries :
    ∀ (entries : List ZipEntry) (t : List FsNode) (p : List String) (c : List ℕ),
      p ≠ [] →
      ((p, c) ∈ walkFiles t ∨ ZipEntry.file p c ∈ entries) →
      (p, c) ∈ walkFiles (entries.foldl
        (fun t e =>
          match e with
          | .file p2 c2 => insertPath t p2 c2
          | .dir p2 => insertDirPath t p2) t) := by
  intro entries
  induction entries with
  | nil =>
    intro t p c hne h
    rcases h with h | h
    · exact h
    · cases h
  | cons e es ih =>
    intro t p c hne h
    rw [List.foldl_cons]
    apply ih _ _ _ hne
    rcases h with h | h
    · left
      cases e with
      | file p2 c2 => exact walkFiles_subset_insertPath t p2 c2 _ h
      | dir p2 => rw [walkFiles_insertDirPath]; exact h
    · rcases List.mem_cons.mp h with h2 | h2
      · left
        rw [← h2]
        exact insertPath_mem_walkFiles t p c hne
      · right
        exact h2

/-- Conversely, every walk entry of the extracted tree stems from a file
entry of the archive. -/
lemma extractall_walk_entries_from_archive :
    ∀ (entries : List ZipEntry) (t : List FsNode) (q : List String) (c : List ℕ),
      (q, c) ∈ walkFiles (entries.foldl
        (fun t e =>
          match e with
          | .file p2 c2 => insertPath t p2 c2
          | .dir p2 => insertDirPath t p2) t) →
      (q, c) ∈ walkFiles t ∨ ZipEntry.file q c ∈ entries := by
  intro entries
  induction entries with
  | nil => intro t q c h; exact Or.inl h
  | cons e es ih =>
    intro t q c h
    rw [List.foldl_cons] at h
    rcases ih _ _ _ h with h2 | h2
    · cases e with
      | file p2 c2 =>
        rcases walkFiles_insertPath_subset t p2 c2 _ h2 with h3 | h3
        · exact Or.inl h3
        · right
          injection h3 with hq hc
          rw [hq, hc]
          exact List.mem_cons_self _ _
      | dir p2 =>
        rw [walkFiles_insertDirPath] at h2
        exact Or.inl h2
    · exact Or.inr (List.mem_cons_of_mem _ h2)

/-- C2: every regular file under the scratch root at repack time appears
in the output archive exactly once, under its scratch-relative path, and
extraction is complete — no file entry of the input archive vanishes from
the repacked output. -/
theorem c2_repack_complete_and_exact :
    (∀ (scratch : List FsNode) (p : List String) (c : List ℕ),
      ((p, c) ∈ reconstruct_pptx scratch ↔ isFileAt scratch p c)) ∧
    (∀ scratch : List FsNode, treeWf scratch = true →
      ((reconstruct_pptx scratch).map Prod.fst).Nodup) ∧
    (∀ (entries : List ZipEntry) (p : List String) (c : List ℕ),
      ZipEntry.file p c ∈ entries → p ≠ [] →
      (p, c) ∈ reconstruct_pptx (extractall entries)) := by
  refine ⟨walkFiles_mem_iff, walkFiles_nodup, ?_⟩
  intro entries p c hmem hne
  exact extractall_preserves_file_entries entries [] p c hne (Or.inr hmem)

theorem c2_repack_complete_and_exact_witness :
    treeWf exTree = true ∧
    ((reconstruct_pptx exTree).map Prod.fst).Nodup ∧
    (ZipEntry.file ["ppt", "media", "media1.wav"] [82, 73] ∈ exEntries) ∧
    (["ppt", "media", "media1.wav"], [82, 73]) ∈
      reconstruct_pptx (extractall exEntries) := by
  refine ⟨by decide, c2_repack_complete_and_exact.2.1 exTree (by decide),
    by decide, c2_repack_complete_and_exact.2.2 exEntries _ _ (by decide) (by decide)⟩

/-- C10: repacking writes only regular files — every entry of the output
archive is backed by a regular file at that path in the scratch tree — so
a directory entry of the original archive extracting to a directory that
contains no files contributes no entry to the reconstructed archive. -/
theorem c10_repack_drops_empty_directories :
    (∀ (scratch : List FsNode) (p : List String) (c : List ℕ),
      (p, c) ∈ reconstruct_pptx scratch → isFileAt scratch p c) ∧
    (∀ (entries : List ZipEntry) (d : List String),
      ZipEntry.dir d ∈ entries →
      (∀ (p2 : List String) (c : List ℕ), ZipEntry.file (d ++ p2) c ∉ entries) →
      ∀ (q : List String) (c : List ℕ),
        (q, c) ∈ reconstruct_pptx (extractall entries) → ¬ ∃ r, q = d ++ r) := by
  constructor
  · intro scratch p c h
    exact (walkFiles_mem_iff scratch p c).mp h
  · intro entries d hdir hnof q c hq
    rintro ⟨r, rfl⟩
    rcases extractall_walk_entries_from_archive entries [] (d ++ r) c hq with h | h
    · exact absurd h (by simp [walkFiles])
    · exact hnof r c h

theorem c10_repack_drops_empty_directories_witness :
    (ZipEntry.dir ["docProps"] ∈ exEntries) ∧
    (∀ (q : List String) (c : List ℕ),
      (q, c) ∈ reconstruct_pptx (extractall exEntries) →
        ¬ ∃ r, q = ["docProps"] ++ r) := by
  have hnof : ∀ (p2 : List String) (c : List ℕ),
      ZipEntry.file (["docProps"] ++ p2) c ∉ exEntries := by
    intro p2 c h
    simp [exEntries] at h
  exact ⟨by decide,
    c10_repack_drops_empty_directories.2 exEntries ["docProps"] (by decide) hnof⟩

end Claims
